import Mathlib

/-!
Verification of the tabular-data viewer core (`sqlite_viewer.py`): the
source-adapter and caching layer, the filter/sort view engine, pagination,
the delimited-text loading fallback, and the distribution-fitting pipeline.
Python floats are modelled as rationals; pandas/NumPy library calls the code
makes are modelled by their documented semantics, noted at each definition.
-/

namespace SqliteViewer

deriving instance DecidableEq for Except

/-- A typed cell of a raw table: a numeric value, a string, or a missing
value (pandas `NaN`/`None`). -/
inductive Cell where
  | num (q : ℚ)
  | str (s : String)
  | null
deriving DecidableEq, Repr

/-- A raw table: ordered column names and ordered rows of cells
(the `pd.DataFrame` the connection returns). -/
structure Table where
  cols : List String
  rows : List (List Cell)
deriving DecidableEq, Repr

/-- The characters of a string, lower-cased character-wise.  Models Python
`str.lower()` as used by `Series.str.contains(case=False)`. -/
def lowerChars (s : String) : List Char :=
  s.toList.map Char.toLower

/-- `startsWithList hay ndl` is true when `ndl` is an initial segment of
`hay`.  Models Python `str.startswith` on the character lists. -/
def startsWithList : List Char → List Char → Bool
  | _, [] => true
  | [], _ :: _ => false
  | a :: as, b :: bs => a == b && startsWithList as bs

/-- `containsList hay ndl` is true when `ndl` occurs contiguously inside
`hay`.  Models Python substring containment (`in`), the semantics of
`str.contains(..., regex=False)`. -/
def containsList : List Char → List Char → Bool
  | [], ndl => ndl.isEmpty
  | a :: t, ndl => startsWithList (a :: t) ndl || containsList t ndl

/-- Python `str.startswith` on Lean strings. -/
def strStartsWith (s p : String) : Bool :=
  startsWithList s.toList p.toList

/-- Case-insensitive non-regex substring test: both sides lower-cased,
then contiguous containment.  Models
`Series.str.contains(query, case=False, regex=False)` applied to the
string form of a cell (source line 70). -/
def containsCI (s q : String) : Bool :=
  containsList (lowerChars s) (lowerChars q)

/-- The string representation of a cell, as produced by
`df.astype(str)` (source line 70): numbers and strings print themselves,
missing values print as "nan". -/
def cellStr : Cell → String
  | .num q => toString q
  | .str s => s
  | .null => "nan"

/-- A row matches the query when at least one of its cells' string forms
contains the query case-insensitively (source line 70: per-column
`str.contains` then `.any(axis=1)`). -/
def rowMatches (q : String) (row : List Cell) : Bool :=
  row.any (fun c => containsCI (cellStr c) q)

/-- The filter step of `get_filtered_sorted_df` (source lines 69-70):
`if search_query:` is Python truthiness, so `None` and the empty string
both skip the filter; otherwise rows failing `rowMatches` are dropped. -/
def filterRows (q : Option String) (rows : List (List Cell)) : List (List Cell) :=
  match q with
  | none => rows
  | some s => if s.isEmpty then rows else rows.filter (rowMatches s)

/-- Whether a cell is missing; models `pandas.isna` on the sort key. -/
def cellIsNull : Cell → Bool
  | .null => true
  | _ => false

/-- Strict comparison of two cells of the same kind; models the `<` the
NumPy comparison sort uses on a homogeneous column.  Cells of different
kinds (which pandas would refuse to compare) and missing values are
incomparable. -/
def cellLtB : Cell → Cell → Bool
  | .num a, .num b => decide (a < b)
  | .str a, .str b => decide (a < b)
  | _, _ => false

/-- Insert `x` into `l` in front of the first element `y` with `le x y`.
With `le x y := !lt y x` this is one step of the stable insertion sort
NumPy's `argsort` performs on small arrays (`npysort/quicksort.c`,
`num <= SMALL_QUICKSORT`). -/
def ordInsert (le : α → α → Bool) (x : α) : List α → List α
  | [] => [x]
  | y :: ys => if le x y then x :: y :: ys else y :: ordInsert le x ys

/-- Stable insertion sort; the model of NumPy's small-array
argsort kernel used by `DataFrame.sort_values`. -/
def insSort (le : α → α → Bool) : List α → List α
  | [] => []
  | x :: xs => ordInsert le x (insSort le xs)

/-- The sort key of row index `j`: the cell of column `keyIdx` in row `j`,
missing when the row or the cell is absent. -/
def keyAt (rows : List (List Cell)) (keyIdx : Nat) (j : Nat) : Cell :=
  (rows.getD j []).getD keyIdx Cell.null

/-- The indices whose key is present, in original order (pandas
`nargsort`'s `non_nan_idx`; the aligned key values are `non_nans`). -/
def nonNullIdx (keys : List Cell) : List Nat :=
  (List.range keys.length).filter (fun j => !cellIsNull (keys.getD j Cell.null))

/-- The indices whose key is missing, in original order (pandas
`nargsort`'s `nan_idx`). -/
def nullIdx (keys : List Cell) : List Nat :=
  (List.range keys.length).filter (fun j => cellIsNull (keys.getD j Cell.null))

/-- Stable argsort of an index list by its keys: since pandas keeps the
value array `non_nans` aligned with the index array `non_nan_idx`
(reversing both together in the descending branch),
`non_nan_idx[non_nans.argsort(kind=kind)]` is exactly the index list
stably sorted by each index's key.  The argsort kernel is modelled by the
stable insertion sort NumPy uses on small arrays
(`npysort/quicksort.c`, `num <= SMALL_QUICKSORT`). -/
def argsortIdx (keys : List Cell) (l : List Nat) : List Nat :=
  insSort (fun j j' => !cellLtB (keys.getD j' Cell.null) (keys.getD j Cell.null)) l

/-- Model of pandas `nargsort` (`pandas/core/sorting.py`), the indexer
`DataFrame.sort_values` applies for a single sort column: missing keys
are split off; when descending, the aligned value and index arrays are
BOTH reversed before the ascending argsort
(`non_nans = non_nans[::-1]; non_nan_idx = non_nan_idx[::-1]`) and the
resulting indexer is reversed again afterwards
(`indexer = indexer[::-1]`); missing-key indices are appended last
(`na_position="last"`).  The double reversal makes the descending order
tie-stable under the stable argsort kernel. -/
def nargsort (keys : List Cell) (ascending : Bool) : List Nat :=
  (if ascending then argsortIdx keys (nonNullIdx keys)
    else (argsortIdx keys ((nonNullIdx keys).reverse)).reverse) ++ nullIdx keys

/-- `df.sort_values(by=column, ascending=sort_order)` (source line 72):
reindex the rows by the `nargsort` indexer of the sort column (every
indexer entry is a valid row index). -/
def sortRows (keyIdx : Nat) (ascending : Bool) (rows : List (List Cell)) : List (List Cell) :=
  (nargsort (rows.map (fun r => r.getD keyIdx Cell.null)) ascending).map
    (fun j => rows.getD j [])

/-- The view parameters of `get_filtered_sorted_df`: sort column (Python
`None` or a string), sort direction (`True` = ascending), search query. -/
structure ViewSpec where
  sortColumn : Option String
  sortAscending : Bool
  searchQuery : Option String
deriving DecidableEq, Repr

/-- The body of `get_filtered_sorted_df` (source lines 68-73): filter by
the search query, then, when `sort_column` is truthy, sort by that column.
A sort column absent from the table makes pandas raise (`KeyError`),
modelled as an error result. -/
def applyViewRows (t : Table) (spec : ViewSpec) : Except String (List (List Cell)) :=
  let fr := filterRows spec.searchQuery t.rows
  match spec.sortColumn with
  | none => .ok fr
  | some c =>
    if c.isEmpty then .ok fr
    else
      match t.cols.findIdx? (fun n => n == c) with
      | none => .error "KeyError"
      | some i => .ok (sortRows i spec.sortAscending fr)

/-- `get_filtered_sorted_df` as a table transformer. -/
def applyView (t : Table) (spec : ViewSpec) : Except String Table :=
  (applyViewRows t spec).map (fun rs => { cols := t.cols, rows := rs })

/-- One call through a `functools.lru_cache(maxsize=1)` slot (the decorator
on `get_df` and `get_filtered_sorted_df`, source lines 40 and 57): on a hit
the stored value is returned and nothing is computed; on a miss the
function body runs once, its result is stored, and the previous entry is
evicted.  The returned `Nat` counts how many times the body ran. -/
def lruGet1 [DecidableEq K] (slot : Option (K × V)) (compute : K → V) (k : K) :
    V × Option (K × V) × Nat :=
  match slot with
  | some (k0, v0) =>
    if k0 = k then (v0, some (k0, v0), 0)
    else (compute k, some (k, compute k), 1)
  | none => (compute k, some (k, compute k), 1)

/-- The full cache key of `get_filtered_sorted_df`:
`(table_name, sort_column, sort_order, search_query)`. -/
structure ViewKey where
  tableName : String
  sortColumn : Option String
  sortOrder : Bool
  searchQuery : Option String
deriving DecidableEq, Repr

/-- The `ViewSpec` of a cache key. -/
def keySpec (k : ViewKey) : ViewSpec :=
  { sortColumn := k.sortColumn, sortAscending := k.sortOrder, searchQuery := k.searchQuery }

/-- The memoization state of one `DataframeConnection`: the single-slot
raw-table cache of `get_df` and the single-slot view cache of
`get_filtered_sorted_df`. -/
structure ConnState where
  rawCache : Option (String × Table)
  viewCache : Option (ViewKey × Table)
deriving DecidableEq

/-- `DataframeConnection.get_df` (source lines 40-55): the backing load
(`_get_sqlite_dataframe` / `_get_excel_dataframe` / `_get_csv_dataframe`)
behind a single-slot cache.  `load` is the format-specific loader; the
backing file never changes during a session. -/
def get_df (load : String → Table) (s : ConnState) (name : String) : Table × ConnState :=
  let r := lruGet1 s.rawCache load name
  (r.1, { s with rawCache := r.2.1 })

/-- The body of `get_filtered_sorted_df` on a view-cache miss: fetch the
raw table through `get_df`, filter and sort it, and store the result in the
view slot on success.  A raised pandas error is cached by neither slot
beyond the raw-table update that already happened. -/
def gfsdCompute (load : String → Table) (s : ConnState) (k : ViewKey) :
    Except String Table × ConnState :=
  match applyView (get_df load s k.tableName).1 (keySpec k) with
  | .ok v => (.ok v, { (get_df load s k.tableName).2 with viewCache := some (k, v) })
  | .error e => (.error e, (get_df load s k.tableName).2)

/-- `DataframeConnection.get_filtered_sorted_df` (source lines 57-73):
the filter/sort body behind its own single-slot cache. -/
def get_filtered_sorted_df (load : String → Table) (s : ConnState) (k : ViewKey) :
    Except String Table × ConnState :=
  match s.viewCache with
  | some (k0, v) => if k0 = k then (.ok v, s) else gfsdCompute load s k
  | none => gfsdCompute load s k

/-- A row of `sqlite_master`: the object name and its catalogue type
("table", "index", "view", "trigger"). -/
structure MasterEntry where
  name : String
  entryType : String
deriving DecidableEq, Repr

/-- `DataframeConnection._get_sqlite_table_names` (source lines 75-78):
`SELECT name FROM sqlite_master WHERE type='table'`, then drop every name
starting with "sqlite_autoindex_". -/
def get_sqlite_table_names (master : List MasterEntry) : List String :=
  ((master.filter (fun e => e.entryType == "table")).map (fun e => e.name)).filter
    (fun n => !strStartsWith n "sqlite_autoindex_")

/-- The fixed candidate catalogue of `on_best_fitted_distribution._worker`
(source line 687), in iteration order. -/
def distNames : List String :=
  ["norm", "expon", "pareto", "lognorm", "gamma", "beta", "uniform", "dweibull"]

/-- Failure modes of the best-fit pipeline: the column-selection dialog's
minimum-row check (source lines 622-624), or an exception raised inside
the fitting loop (source lines 692-703). -/
inductive FitErr where
  | tooFewRows
  | fitRaised
deriving DecidableEq, Repr

/-- The fitting loop of `on_best_fitted_distribution._worker` (source lines
692-698).  `env d` is the outcome of the external scipy call on the
column's non-missing data: `some (params, ll)` bundles the
maximum-likelihood parameters of `getattr(st, d).fit(data)` with the total
log-likelihood `getattr(st, d).logpdf(data, *params).sum()`; `none` models
the call raising (numerical non-convergence).  The loop keeps the
candidate of strictly smaller AIC (`aic = 2 * len(params) - 2 * ll`),
starting from `best_aic = inf`; a raise anywhere aborts the whole loop
(there is no per-candidate handler). -/
def fitLoop (env : String → Option (List ℚ × ℚ)) :
    List String → Option (String × List ℚ × ℚ) → Except FitErr (Option (String × List ℚ × ℚ))
  | [], best => .ok best
  | d :: ds, best =>
    match env d with
    | none => .error .fitRaised
    | some (params, ll) =>
      let aic : ℚ := 2 * params.length - 2 * ll
      let best' :=
        match best with
        | none => some (d, params, aic)
        | some (bd, bp, ba) => if aic < ba then some (d, params, aic) else some (bd, bp, ba)
      fitLoop env ds best'

/-- The best-fit pipeline for one selected column: the dialog admits the
request only when the dataframe has at least `min_data_count = 10` rows
(source lines 592 and 622-624, a row count taken before missing values
are dropped), then the worker drops missing values and runs the fitting
loop over the catalogue.  `col` is the selected column, one entry per
dataframe row, `none` marking a missing value. -/
def fitPipeline (col : List (Option ℚ)) (env : String → Option (List ℚ × ℚ)) :
    Except FitErr (Option (String × List ℚ × ℚ)) :=
  if col.length < 10 then .error .tooFewRows
  else fitLoop env distNames none

/-- The AIC a candidate would score, read off the external fit outcome
(`0` is a dummy for candidates that raise). -/
def aicOfOutcome : Option (List ℚ × ℚ) → ℚ
  | some (p, ll) => 2 * p.length - 2 * ll
  | none => 0

/-- The Python exceptions relevant to `_get_csv_dataframe`, by class:
`pd.errors.EmptyDataError` and `pd.errors.ParserError` subclass
`ValueError`, as does `UnicodeDecodeError` (via `UnicodeError`);
`otherValue` stands for any further `ValueError`, `typeErr` for
`TypeError`, `otherExc` for everything else. -/
inductive PyExc where
  | emptyData
  | parserError
  | unicodeDecode
  | otherValue
  | typeErr
  | otherExc
deriving DecidableEq, Repr

/-- Membership in Python's `ValueError` class hierarchy. -/
def excIsValueError : PyExc → Bool
  | .emptyData => true
  | .parserError => true
  | .unicodeDecode => true
  | .otherValue => true
  | _ => false

/-- Membership in Python's `TypeError` class. -/
def excIsTypeError : PyExc → Bool
  | .typeErr => true
  | _ => false

/-- Modelled from the spec: a "structural parse failure" is malformed
delimited content, the `ParseError` of the spec's error taxonomy
(`pd.errors.ParserError`); an encoding failure or other `ValueError` is
not structural. -/
def isStructuralParseFailure : PyExc → Bool
  | .parserError => true
  | _ => false

/-- The zero-row, zero-column table `pd.DataFrame()`. -/
def emptyTable : Table :=
  { cols := [], rows := [] }

/-- The outcome of one CSV load attempt: the parsed table, or a raised
exception. -/
abbrev CsvAttempt := Except PyExc Table

/-- The result of `_get_csv_dataframe`: the overall outcome and whether
the semicolon fallback ran. -/
structure CsvLoad where
  result : Except PyExc Table
  retried : Bool

/-- `DataframeConnection._get_csv_dataframe` (source lines 91-97):
try the comma parse; `except pd.errors.EmptyDataError` yields the empty
dataframe; `except (TypeError, ValueError)` retries once with the
semicolon delimiter and the lenient bad-line policy; any other exception
propagates.  `comma` and `semi` are the outcomes of the two external
`pd.read_csv` calls. -/
def get_csv_dataframe (comma semi : CsvAttempt) : CsvLoad :=
  match comma with
  | .ok t => { result := .ok t, retried := false }
  | .error e =>
    if e = .emptyData then { result := .ok emptyTable, retried := false }
    else if excIsTypeError e || excIsValueError e then { result := semi, retried := true }
    else { result := .error e, retried := false }

/-- `SQLiteViewer.on_page_change` (source lines 759-765): with a database
loaded and more than one page, the new page is
`((current_page - 2 if backward else current_page) % total_pages) + 1`
with Python's nonnegative `%`; otherwise nothing changes. -/
def on_page_change (db : Bool) (totalPages : Int) (currentPage : Int) (backward : Bool) : Int :=
  if db && decide (1 < totalPages) then
    (if backward then currentPage - 2 else currentPage) % totalPages + 1
  else currentPage

/-- The sort-related presentation state `on_column_click` manipulates. -/
structure SortState where
  sortColumn : Option String
  sortOrder : Bool
  currentPage : Int
deriving DecidableEq, Repr

/-- `SQLiteViewer.on_column_click` (source lines 709-722): clicking the
current sort column while descending clears the sort, while ascending
flips to descending; clicking any other column sorts by it ascending;
every click sets the current page to 1. -/
def on_column_click (s : SortState) (column : String) : SortState :=
  if s.sortColumn = some column then
    { sortColumn := if !s.sortOrder then none else s.sortColumn
      sortOrder := false
      currentPage := 1 }
  else
    { sortColumn := some column, sortOrder := true, currentPage := 1 }

/-- The spec's wording of the filter predicate: the cell's string
representation contains the query as a case-insensitive substring, i.e.
some contiguous piece of it equals the query up to letter case. -/
def specContainsCI (s q : String) : Prop :=
  ∃ l mid r, s.toList = l ++ mid ++ r ∧
    mid.map Char.toLower = q.toList.map Char.toLower

/-- The raw-table cache slot only ever holds what the loader produced for
its key; every reachable `ConnState` satisfies this, since the slot is
filled exclusively by `get_df` and the backing file is fixed. -/
def rawCoherent (load : String → Table) (s : ConnState) : Prop :=
  ∀ k v, s.rawCache = some (k, v) → v = load k

/-! ## Shared lemmas -/

theorem startsWithList_append_right (p q : List Char) :
    ∀ s : List Char, startsWithList s (p ++ q) = true → startsWithList s p = true := by
  induction p with
  | nil =>
    intro s _
    cases s <;> rfl
  | cons b bs ih =>
    intro s h
    cases s with
    | nil => simp [startsWithList] at h
    | cons a as =>
      simp only [List.cons_append, startsWithList, Bool.and_eq_true] at h ⊢
      exact ⟨h.1, ih as h.2⟩

theorem strStartsWith_sqlite_of_autoindex (n : String)
    (h : strStartsWith n "sqlite_autoindex_" = true) :
    strStartsWith n "sqlite_" = true := by
  have hsplit : ("sqlite_autoindex_").toList = ("sqlite_").toList ++ ("autoindex_").toList := by
    decide
  unfold strStartsWith at h ⊢
  rw [hsplit] at h
  exact startsWithList_append_right _ _ _ h

theorem lruGet1_idem {K V : Type} [DecidableEq K]
    (slot : Option (K × V)) (compute : K → V) (k : K) :
    lruGet1 (lruGet1 slot compute k).2.1 compute k =
      ((lruGet1 slot compute k).1, (lruGet1 slot compute k).2.1, 0) := by
  rcases slot with _ | ⟨k0, v0⟩
  · simp [lruGet1]
  · by_cases h : k0 = k <;> simp [lruGet1, h]

theorem fitLoop_ok_of_all_some (env : String → Option (List ℚ × ℚ)) :
    ∀ (ds : List String) (best : Option (String × List ℚ × ℚ)),
      (∀ d ∈ ds, env d ≠ none) →
      ∃ r, fitLoop env ds best = .ok r ∧ (best.isSome = true → r.isSome = true) ∧
        (ds ≠ [] → r.isSome = true) := by
  intro ds
  induction ds with
  | nil =>
    intro best _
    exact ⟨best, rfl, fun h => h, fun h => absurd rfl h⟩
  | cons d ds ih =>
    intro best h
    match henv : env d with
    | none => exact absurd henv (h d (List.mem_cons_self d ds))
    | some (params, ll) =>
      simp only [fitLoop, henv]
      set best' := (match best with
        | none => some (d, params, 2 * (params.length : ℚ) - 2 * ll)
        | some (bd, bp, ba) =>
          if 2 * (params.length : ℚ) - 2 * ll < ba then
            some (d, params, 2 * (params.length : ℚ) - 2 * ll)
          else some (bd, bp, ba)) with hbest'
      have hsome : best'.isSome = true := by
        rcases best with _ | ⟨bd, bp, ba⟩
        · simp [hbest']
        · simp only [hbest']
          split <;> simp
      obtain ⟨r, hr, hs, _⟩ := ih best' (fun x hx => h x (List.mem_cons_of_mem d hx))
      exact ⟨r, hr, fun _ => hs hsome, fun _ => hs hsome⟩

theorem fitLoop_error_of_some_none (env : String → Option (List ℚ × ℚ)) :
    ∀ (ds : List String) (best : Option (String × List ℚ × ℚ)) (d : String),
      d ∈ ds → env d = none → fitLoop env ds best = .error .fitRaised := by
  intro ds
  induction ds with
  | nil => intro best d hd; cases hd
  | cons d0 ds ih =>
    intro best d hd henv
    rcases List.mem_cons.mp hd with rfl | hmem
    · simp only [fitLoop, henv]
    · match h0 : env d0 with
      | none => simp only [fitLoop, h0]
      | some (params, ll) =>
        simp only [fitLoop, h0]
        exact ih _ d hmem henv

theorem fitLoop_min_spec (env : String → Option (List ℚ × ℚ)) :
    ∀ (ds : List String) (bd : String) (bp : List ℚ) (ba : ℚ),
      (∀ d ∈ ds, (env d).isSome = true) →
      ∃ rd rp ra, fitLoop env ds (some (bd, bp, ba)) = .ok (some (rd, rp, ra)) ∧
        ra ≤ ba ∧
        (∀ j, j < ds.length → ra ≤ aicOfOutcome (env (ds.getD j ""))) ∧
        ((rd = bd ∧ rp = bp ∧ ra = ba) ∨
          ∃ j, j < ds.length ∧ rd = ds.getD j "" ∧
            (∃ ll, env rd = some (rp, ll) ∧ ra = 2 * (rp.length : ℚ) - 2 * ll) ∧
            ra < ba ∧ ∀ j', j' < j → ra < aicOfOutcome (env (ds.getD j' ""))) := by
  intro ds
  induction ds with
  | nil =>
    intro bd bp ba _
    exact ⟨bd, bp, ba, rfl, le_refl ba, fun j hj => absurd hj (by simp),
      Or.inl ⟨rfl, rfl, rfl⟩⟩
  | cons d ds ih =>
    intro bd bp ba hall
    obtain ⟨pll, hd⟩ := Option.isSome_iff_exists.mp (hall d (List.mem_cons_self d ds))
    obtain ⟨p, ll⟩ := pll
    have haic : aicOfOutcome (env d) = 2 * (p.length : ℚ) - 2 * ll := by
      rw [hd]
      rfl
    have htail : ∀ x ∈ ds, (env x).isSome = true :=
      fun x hx => hall x (List.mem_cons_of_mem d hx)
    by_cases hlt : 2 * (p.length : ℚ) - 2 * ll < ba
    · have hstep : fitLoop env (d :: ds) (some (bd, bp, ba)) =
          fitLoop env ds (some (d, p, 2 * (p.length : ℚ) - 2 * ll)) := by
        simp only [fitLoop, hd, if_pos hlt]
      obtain ⟨rd, rp, ra, hloop, hle, hmin, hwin⟩ :=
        ih d p (2 * (p.length : ℚ) - 2 * ll) htail
      refine ⟨rd, rp, ra, by rw [hstep, hloop], le_trans hle (le_of_lt hlt), ?_, ?_⟩
      · intro j hj
        cases j with
        | zero => simpa [haic] using hle
        | succ j => exact hmin j (by simpa using hj)
      · rcases hwin with ⟨h1, h2, h3⟩ | ⟨j, hj, hjd, hform, hra, hstrict⟩
        · right
          refine ⟨0, by simp, by simpa using h1, ?_, by rw [h3]; exact hlt,
            fun j' hj' => absurd hj' (by simp)⟩
          exact ⟨ll, by rw [h1, hd, h2], by rw [h2, h3]⟩
        · right
          refine ⟨j + 1, by simpa using hj, by simpa using hjd, hform,
            lt_trans hra hlt, ?_⟩
          intro j' hj'
          cases j' with
          | zero => simpa [haic] using hra
          | succ j' => exact hstrict j' (by omega)
    · have hstep : fitLoop env (d :: ds) (some (bd, bp, ba)) =
          fitLoop env ds (some (bd, bp, ba)) := by
        simp only [fitLoop, hd, if_neg hlt]
      push_neg at hlt
      obtain ⟨rd, rp, ra, hloop, hle, hmin, hwin⟩ := ih bd bp ba htail
      refine ⟨rd, rp, ra, by rw [hstep, hloop], hle, ?_, ?_⟩
      · intro j hj
        cases j with
        | zero => simpa [haic] using le_trans hle hlt
        | succ j => exact hmin j (by simpa using hj)
      · rcases hwin with hleft | ⟨j, hj, hjd, hform, hra, hstrict⟩
        · exact Or.inl hleft
        · right
          refine ⟨j + 1, by simpa using hj, by simpa using hjd, hform, hra, ?_⟩
          intro j' hj'
          cases j' with
          | zero => simpa [haic] using lt_of_lt_of_le hra hlt
          | succ j' => exact hstrict j' (by omega)

theorem fitLoop_cons_none_spec (env : String → Option (List ℚ × ℚ)) (d : String)
    (ds : List String) (hall : ∀ x ∈ d :: ds, (env x).isSome = true) :
    ∃ i rp ra, i < (d :: ds).length ∧
      fitLoop env (d :: ds) none = .ok (some ((d :: ds).getD i "", rp, ra)) ∧
      (∃ ll, env ((d :: ds).getD i "") = some (rp, ll) ∧
        ra = 2 * (rp.length : ℚ) - 2 * ll) ∧
      (∀ j, j < (d :: ds).length → ra ≤ aicOfOutcome (env ((d :: ds).getD j ""))) ∧
      (∀ j, j < i → ra < aicOfOutcome (env ((d :: ds).getD j ""))) := by
  obtain ⟨⟨p0, ll0⟩, h0⟩ := Option.isSome_iff_exists.mp (hall d (List.mem_cons_self d ds))
  have hstep : fitLoop env (d :: ds) none =
      fitLoop env ds (some (d, p0, 2 * (p0.length : ℚ) - 2 * ll0)) := by
    simp only [fitLoop, h0]
  have haic0 : aicOfOutcome (env d) = 2 * (p0.length : ℚ) - 2 * ll0 := by
    rw [h0]
    rfl
  obtain ⟨rd, rp, ra, hloop, hle, hmin, hwin⟩ :=
    fitLoop_min_spec env ds d p0 (2 * (p0.length : ℚ) - 2 * ll0)
      (fun x hx => hall x (List.mem_cons_of_mem d hx))
  rcases hwin with ⟨rfl, rfl, rfl⟩ | ⟨j, hj, hjd, hform, hra, hstrict⟩
  · refine ⟨0, rp, 2 * (rp.length : ℚ) - 2 * ll0, by simp, ?_,
      ⟨ll0, by simpa using h0, rfl⟩, ?_, fun k hk => absurd hk (by omega)⟩
    · rw [hstep, hloop]
      simp
    · intro k hk
      cases k with
      | zero => simp [haic0]
      | succ k =>
        simp only [List.length_cons] at hk
        simpa using hmin k (by omega)
  · refine ⟨j + 1, rp, ra, by simp; omega, ?_, ?_, ?_, ?_⟩
    · rw [hstep, hloop, hjd]
      simp [List.getD_cons_succ]
    · obtain ⟨ll, h1, h2⟩ := hform
      refine ⟨ll, ?_, h2⟩
      rw [show ((d :: ds).getD (j + 1) "") = ds.getD j "" from rfl, ← hjd]
      exact h1
    · intro k hk
      cases k with
      | zero => simpa [haic0] using hle
      | succ k =>
        simp only [List.length_cons] at hk
        simpa using hmin k (by omega)
    · intro k hk
      cases k with
      | zero => simpa [haic0] using hra
      | succ k => simpa using hstrict k (by omega)

theorem startsWithList_iff (p : List Char) :
    ∀ s, startsWithList s p = true ↔ ∃ r, s = p ++ r := by
  induction p with
  | nil =>
    intro s
    exact ⟨fun _ => ⟨s, rfl⟩, fun _ => by cases s <;> rfl⟩
  | cons b bs ih =>
    intro s
    cases s with
    | nil =>
      simp [startsWithList]
    | cons a as =>
      simp only [startsWithList, Bool.and_eq_true, beq_iff_eq, ih, List.cons_append,
        List.cons.injEq]
      constructor
      · rintro ⟨rfl, r, rfl⟩
        exact ⟨r, rfl, rfl⟩
      · rintro ⟨r, rfl, rfl⟩
        exact ⟨rfl, r, rfl⟩

theorem containsList_iff (ndl : List Char) :
    ∀ hay, containsList hay ndl = true ↔ ∃ l r, hay = l ++ ndl ++ r := by
  intro hay
  induction hay with
  | nil =>
    simp only [containsList, List.isEmpty_iff]
    constructor
    · rintro rfl
      exact ⟨[], [], rfl⟩
    · rintro ⟨l, r, h⟩
      rcases List.append_eq_nil.mp h.symm with ⟨h1, h2⟩
      exact (List.append_eq_nil.mp h1).2
  | cons a t ih =>
    simp only [containsList, Bool.or_eq_true, startsWithList_iff, ih]
    constructor
    · rintro (⟨r, hr⟩ | ⟨l, r, hr⟩)
      · exact ⟨[], r, by simpa using hr⟩
      · exact ⟨a :: l, r, by rw [hr]; rfl⟩
    · rintro ⟨l, r, hr⟩
      cases l with
      | nil => exact Or.inl ⟨r, by simpa using hr⟩
      | cons x l =>
        exact Or.inr ⟨l, r, (List.cons.inj hr).2⟩

theorem containsCI_iff_specContainsCI (s q : String) :
    containsCI s q = true ↔ specContainsCI s q := by
  unfold containsCI specContainsCI lowerChars
  rw [containsList_iff]
  constructor
  · rintro ⟨l, r, h⟩
    obtain ⟨lq, r', hs, hlq, hr'⟩ := List.map_eq_append_iff.mp h
    obtain ⟨l', mid, hlq2, hl', hmid⟩ := List.map_eq_append_iff.mp hlq
    exact ⟨l', mid, r', by rw [hs, hlq2], hmid⟩
  · rintro ⟨l, mid, r, hs, hmid⟩
    refine ⟨l.map Char.toLower, r.map Char.toLower, ?_⟩
    rw [hs]
    simp [hmid]

/-! ## Claim theorems -/

/-- C10: clicking a column header cycles none → ascending → descending →
cleared, and every click resets the current page to 1
(`on_column_click`, source lines 709-722). -/
theorem c10_column_click_cycle (s : SortState) (c : String) :
    (on_column_click s c).currentPage = 1 ∧
    (s.sortColumn ≠ some c → on_column_click s c = ⟨some c, true, 1⟩) ∧
    (s.sortColumn = some c → s.sortOrder = true → on_column_click s c = ⟨some c, false, 1⟩) ∧
    (s.sortColumn = some c → s.sortOrder = false → on_column_click s c = ⟨none, false, 1⟩) := by
  obtain ⟨sc, so, cp⟩ := s
  by_cases h : sc = some c <;> cases so <;> simp [on_column_click, h]

/-- C10 witness: the second click on the current ascending sort column
flips to descending and resets the page. -/
theorem c10_column_click_cycle_witness :
    on_column_click ⟨some "a", true, 7⟩ "a" = ⟨some "a", false, 1⟩ :=
  (c10_column_click_cycle ⟨some "a", true, 7⟩ "a").2.2.1 rfl rfl

/-- C6: with a database loaded and the current page in range, advancing
yields `p % total_pages + 1` and retreating yields `(p - 2) % total_pages
+ 1`; in particular the last page advances to 1 and page 1 retreats to
the last page (`on_page_change`, source lines 759-765; for
`total_pages = 1` the handler leaves the page unchanged, which agrees
with both formulas). -/
theorem c6_page_navigation_wraps (db : Bool) (T p : Int) (hdb : db = true)
    (hT : 1 ≤ T) (hp1 : 1 ≤ p) (hpT : p ≤ T) :
    on_page_change db T p false = p % T + 1 ∧
    on_page_change db T p true = (p - 2) % T + 1 ∧
    (p = T → on_page_change db T p false = 1) ∧
    (p = 1 → on_page_change db T p true = T) := by
  subst hdb
  by_cases h1 : 1 < T
  · have hf : on_page_change true T p false = p % T + 1 := by
      simp [on_page_change, h1]
    have hb : on_page_change true T p true = (p - 2) % T + 1 := by
      simp [on_page_change, h1]
    refine ⟨hf, hb, ?_, ?_⟩
    · rintro rfl
      rw [hf, Int.emod_self]
      norm_num
    · rintro rfl
      rw [hb]
      have h2 : (1 - 2 : ℤ) = T - 1 + T * (-1) := by ring
      rw [h2, Int.add_mul_emod_self_left, Int.emod_eq_of_lt (by omega) (by omega)]
      ring
  · have hT1 : T = 1 := by omega
    have hp2 : p = 1 := by omega
    subst hT1
    subst hp2
    refine ⟨?_, ?_, fun _ => rfl, fun _ => rfl⟩ <;> simp [on_page_change]

/-- C6 witness: with 5 pages, advancing from page 5 wraps to page 1 and
retreating from page 1 wraps to page 5. -/
theorem c6_page_navigation_wraps_witness :
    on_page_change true 5 5 false = 5 % 5 + 1 ∧
    on_page_change true 5 5 true = (5 - 2) % 5 + 1 ∧
    (5 = (5 : Int) → on_page_change true 5 5 false = 1) ∧
    ((5 : Int) = 1 → on_page_change true 5 5 true = 5) :=
  c6_page_navigation_wraps true 5 5 rfl (by decide) (by decide) (by decide)

/-- C3: the `lru_cache(maxsize=1)` slot behind `get_df` and
`get_filtered_sorted_df` is single-slot memoization: a call whose key
equals the stored key returns the stored value with zero invocations of
the body; a call with a differing key (or an empty slot) invokes the body
exactly once and the new slot holds only the new pair, evicting the old
entry; two consecutive calls with the same key never recompute, and in
particular a repeated `get_df` returns the identical cached table and
leaves the connection state unchanged. -/
theorem c3_single_slot_cache {K V : Type} [DecidableEq K]
    (slot : Option (K × V)) (compute : K → V) (k : K) :
    (∀ k0 v0, slot = some (k0, v0) → k0 = k → lruGet1 slot compute k = (v0, slot, 0)) ∧
    (∀ k0 v0, slot = some (k0, v0) → k0 ≠ k →
      lruGet1 slot compute k = (compute k, some (k, compute k), 1)) ∧
    (slot = none → lruGet1 slot compute k = (compute k, some (k, compute k), 1)) ∧
    lruGet1 (lruGet1 slot compute k).2.1 compute k =
      ((lruGet1 slot compute k).1, (lruGet1 slot compute k).2.1, 0) ∧
    ∀ (load : String → Table) (st : ConnState) (name : String),
      get_df load (get_df load st name).2 name = get_df load st name := by
  refine ⟨?_, ?_, ?_, lruGet1_idem slot compute k, ?_⟩
  · rintro k0 v0 rfl rfl
    simp [lruGet1]
  · rintro k0 v0 rfl hne
    simp [lruGet1, hne]
  · rintro rfl
    simp [lruGet1]
  · intro load st name
    have h := lruGet1_idem st.rawCache load name
    simp only [get_df, h]

/-- C3 witness: a hit on the stored key returns the stored value without
running the body. -/
theorem c3_single_slot_cache_witness :
    lruGet1 (some ("x", 3)) (fun _ : String => (7 : Nat)) "x" = (3, some ("x", 3), 0) :=
  (c3_single_slot_cache (some ("x", 3)) (fun _ : String => (7 : Nat)) "x").1 "x" 3 rfl rfl

/-- C8: `_get_sqlite_table_names` (source lines 75-78) returns exactly the
catalogue entries of type "table" whose name does not carry the
engine-reserved auto-index name ("sqlite_autoindex_"); every
auto-index-named entry is excluded, and every user table — whose name, by
the engine's reservation of the "sqlite_" name space, does not start with
"sqlite_" — is kept. -/
theorem c8_table_listing (master : List MasterEntry) :
    (∀ n, n ∈ get_sqlite_table_names master ↔
      ((∃ e, e ∈ master ∧ e.name = n ∧ e.entryType = "table") ∧
        strStartsWith n "sqlite_autoindex_" = false)) ∧
    (∀ e, e ∈ master → e.entryType = "table" →
      strStartsWith e.name "sqlite_" = false →
      e.name ∈ get_sqlite_table_names master) ∧
    (∀ n, strStartsWith n "sqlite_autoindex_" = true →
      n ∉ get_sqlite_table_names master) := by
  have base : ∀ n, n ∈ get_sqlite_table_names master ↔
      ((∃ e, e ∈ master ∧ e.name = n ∧ e.entryType = "table") ∧
        strStartsWith n "sqlite_autoindex_" = false) := by
    intro n
    simp only [get_sqlite_table_names, List.mem_filter, List.mem_map, Bool.not_eq_true',
      beq_iff_eq]
    constructor
    · rintro ⟨⟨e, he, rfl⟩, hres⟩
      exact ⟨⟨e, he.1, rfl, he.2⟩, hres⟩
    · rintro ⟨⟨e, he, rfl, ht⟩, hres⟩
      exact ⟨⟨e, ⟨he, ht⟩, rfl⟩, hres⟩
  refine ⟨base, ?_, ?_⟩
  · intro e he ht hu
    refine (base e.name).mpr ⟨⟨e, he, rfl, ht⟩, ?_⟩
    cases h : strStartsWith e.name "sqlite_autoindex_" with
    | false => rfl
    | true =>
      rw [strStartsWith_sqlite_of_autoindex e.name h] at hu
      cases hu
  · intro n h hmem
    have := ((base n).mp hmem).2
    rw [h] at this
    cases this

/-- C8 witness: a user table survives the listing while an auto-index
entry of table type is dropped. -/
theorem c8_table_listing_witness :
    "users" ∈ get_sqlite_table_names
      [⟨"users", "table"⟩, ⟨"sqlite_autoindex_users_1", "table"⟩, ⟨"idx", "index"⟩] :=
  (c8_table_listing
      [⟨"users", "table"⟩, ⟨"sqlite_autoindex_users_1", "table"⟩, ⟨"idx", "index"⟩]).2.1
    ⟨"users", "table"⟩ (by decide) rfl (by decide)

/-- C5 counterexample: a comma parse failing with `UnicodeDecodeError`
(a `ValueError` that is not a structural parse failure — the file's
encoding, not its delimited structure, is at fault) still triggers the
semicolon retry, so "retries exactly on structural parse failure" is
false as stated. -/
theorem c5_csv_retry_cx :
    (get_csv_dataframe (.error .unicodeDecode) (.ok emptyTable)).retried = true ∧
    isStructuralParseFailure .unicodeDecode = false := by
  decide

/-- C5 as amended: the semicolon retry runs exactly when the comma parse
raises a `TypeError` or a `ValueError` other than `EmptyDataError`
(structural parse failures, i.e. `ParserError`, are such `ValueError`s,
but so are non-structural ones such as `UnicodeDecodeError`); a
successful comma parse is never retried; an empty file yields the
zero-row table with no retry and no error
(`_get_csv_dataframe`, source lines 91-97). -/
theorem c5_csv_retry_amended (comma semi : CsvAttempt) :
    ((get_csv_dataframe comma semi).retried = true ↔
      ∃ e, comma = .error e ∧ e ≠ .emptyData ∧
        (excIsTypeError e || excIsValueError e) = true) ∧
    (∀ t, comma = .ok t → get_csv_dataframe comma semi = ⟨.ok t, false⟩) ∧
    (comma = .error .emptyData → get_csv_dataframe comma semi = ⟨.ok emptyTable, false⟩) ∧
    (comma = .error .parserError → get_csv_dataframe comma semi = ⟨semi, true⟩) := by
  rcases comma with e | t
  · cases e <;> simp [get_csv_dataframe, excIsTypeError, excIsValueError]
  · simp [get_csv_dataframe]

/-- C5 witness: a structural (`ParserError`) comma failure is retried
with the semicolon delimiter. -/
theorem c5_csv_retry_amended_witness :
    get_csv_dataframe (.error .parserError) (.ok emptyTable) = ⟨.ok emptyTable, true⟩ :=
  (c5_csv_retry_amended (.error .parserError) (.ok emptyTable)).2.2.2 rfl

/-- C1 counterexample, two concrete runs of the pipeline.  First: a
column of 10 rows with only 5 non-missing values is admitted (the dialog
counts rows, not non-missing values) and, with every scipy fit
succeeding, produces a best-fit result — yet the claim requires a
`FitError` for fewer than 10 non-missing values.  Second: a column of 10
non-missing values where the "expon" candidate raises while "norm" fits
makes the whole pipeline fail — yet the claim requires a best-fit result
whenever at least one candidate fits. -/
theorem c1_fit_failure_cx :
    (([some 1, some 2, some 3, some 4, some 5, none, none, none, none, none] :
        List (Option ℚ)).filterMap id).length < 10 ∧
    fitPipeline [some 1, some 2, some 3, some 4, some 5, none, none, none, none, none]
      (fun _ => some ([0, 1], 0)) = .ok (some ("norm", [0, 1], 4)) ∧
    10 ≤ ((List.replicate 10 (some (1 : ℚ))).filterMap id).length ∧
    ((fun d => if d == "expon" then none else some ([0, 1], 0)) "norm" :
        Option (List ℚ × ℚ)).isSome = true ∧
    fitPipeline (List.replicate 10 (some 1))
      (fun d => if d == "expon" then none else some ([0, 1], 0)) = .error .fitRaised := by
  refine ⟨by decide, ?_, by decide, by decide, by rfl⟩
  norm_num [fitPipeline, fitLoop, distNames]

/-- C1 as amended: the best-fit pipeline fails exactly when the selected
column has fewer than 10 entries (rows, missing values included — the
dialog's `len(df)` check) or at least one candidate family's fit raises;
with at least 10 rows and every candidate fitting, a best-fit result is
always produced (and in the all-fail case the first raise aborts the
loop, so no partial result is returned). -/
theorem c1_fit_failure_amended (col : List (Option ℚ))
    (env : String → Option (List ℚ × ℚ)) :
    ((∃ e, fitPipeline col env = .error e) ↔
      (col.length < 10 ∨ ∃ d, d ∈ distNames ∧ env d = none)) ∧
    (col.length < 10 → fitPipeline col env = .error .tooFewRows) ∧
    (10 ≤ col.length → (∀ d ∈ distNames, env d ≠ none) →
      ∃ b, fitPipeline col env = .ok (some b)) := by
  by_cases h10 : col.length < 10
  · refine ⟨⟨fun _ => Or.inl h10, fun _ => ⟨.tooFewRows, by simp [fitPipeline, h10]⟩⟩,
      fun _ => by simp [fitPipeline, h10], fun hge _ => absurd h10 (by omega)⟩
  · have hpipe : fitPipeline col env = fitLoop env distNames none := by
      simp [fitPipeline, h10]
    refine ⟨⟨?_, ?_⟩, fun h => absurd h h10, ?_⟩
    · rintro ⟨e, he⟩
      by_contra hno
      push_neg at hno
      obtain ⟨r, hr, -, -⟩ := fitLoop_ok_of_all_some env distNames none
        (fun d hd hn => hno.2 d hd hn)
      rw [hpipe, hr] at he
      cases he
    · rintro (h | ⟨d, hd, hn⟩)
      · exact absurd h h10
      · exact ⟨.fitRaised, by rw [hpipe]; exact fitLoop_error_of_some_none env distNames none d hd hn⟩
    · intro _ hall
      obtain ⟨r, hr, -, hne⟩ := fitLoop_ok_of_all_some env distNames none hall
      have : r.isSome = true := hne (by simp [distNames])
      obtain ⟨b, rfl⟩ := Option.isSome_iff_exists.mp this
      exact ⟨b, by rw [hpipe, hr]⟩

/-- C1 amended witness: ten non-missing values and an all-fitting
catalogue produce a best-fit result. -/
theorem c1_fit_failure_amended_witness :
    10 ≤ (List.replicate 10 (some (1 : ℚ))).length ∧
    ∃ b, fitPipeline (List.replicate 10 (some 1))
      (fun _ => some ([0, 1], 0)) = .ok (some b) :=
  ⟨by decide,
    (c1_fit_failure_amended (List.replicate 10 (some 1)) (fun _ => some ([0, 1], 0))).2.2
      (by decide) (fun d _ => by simp)⟩

/-- C2: with enough non-missing values and every candidate fitting, the
fitter walks the fixed catalogue normal, exponential, Pareto, log-normal,
gamma, beta, uniform, double-Weibull in order, scores each candidate by
`AIC = 2*k - 2*logLikelihood` where `k` is its fitted parameter count
(`len(params)`), and returns the candidate of minimum AIC, an earlier
candidate winning every tie (the loop replaces the best only on a
strictly smaller AIC, source lines 686-700). -/
theorem c2_aic_selection (col : List (Option ℚ)) (env : String → Option (List ℚ × ℚ))
    (h10 : 10 ≤ (col.filterMap id).length)
    (hall : ∀ d ∈ distNames, (env d).isSome = true) :
    distNames = ["norm", "expon", "pareto", "lognorm", "gamma", "beta", "uniform", "dweibull"] ∧
    ∃ i rp ra, i < distNames.length ∧
      fitPipeline col env = .ok (some (distNames.getD i "", rp, ra)) ∧
      (∃ ll, env (distNames.getD i "") = some (rp, ll) ∧
        ra = 2 * (rp.length : ℚ) - 2 * ll) ∧
      (∀ j, j < distNames.length → ra ≤ aicOfOutcome (env (distNames.getD j ""))) ∧
      (∀ j, j < i → ra < aicOfOutcome (env (distNames.getD j ""))) := by
  have hlen : ¬ col.length < 10 := by
    have := List.length_filterMap_le id col
    omega
  have hpipe : fitPipeline col env = fitLoop env distNames none := by
    simp [fitPipeline, hlen]
  obtain ⟨i, rp, ra, hi, hres, hform, hmin, hstrict⟩ :=
    fitLoop_cons_none_spec env "norm"
      ["expon", "pareto", "lognorm", "gamma", "beta", "uniform", "dweibull"]
      (fun x hx => hall x hx)
  exact ⟨rfl, i, rp, ra, hi, by rw [hpipe]; exact hres, hform, hmin, hstrict⟩

/-- C2 witness: with the "pareto" candidate scoring the strictly smallest
AIC, the pipeline selects it. -/
theorem c2_aic_selection_witness :
    distNames = ["norm", "expon", "pareto", "lognorm", "gamma", "beta", "uniform", "dweibull"] ∧
    ∃ i rp ra, i < distNames.length ∧
      fitPipeline (List.replicate 10 (some (1 : ℚ)))
        (fun d => if d == "pareto" then some ([], 3) else some ([], 0)) =
        .ok (some (distNames.getD i "", rp, ra)) ∧
      (∃ ll, (fun d => if d == "pareto" then some ([], 3) else some ([], (0 : ℚ)))
          (distNames.getD i "") = some (rp, ll) ∧
        ra = 2 * (rp.length : ℚ) - 2 * ll) ∧
      (∀ j, j < distNames.length →
        ra ≤ aicOfOutcome ((fun d => if d == "pareto" then some ([], 3) else some ([], 0))
          (distNames.getD j ""))) ∧
      (∀ j, j < i →
        ra < aicOfOutcome ((fun d => if d == "pareto" then some ([], 3) else some ([], 0))
          (distNames.getD j ""))) :=
  c2_aic_selection (List.replicate 10 (some 1))
    (fun d => if d == "pareto" then some ([], 3) else some ([], 0))
    (by decide) (fun d _ => by simp only []; split <;> rfl)

/-- C7: for a non-empty query the filter keeps exactly the rows in which
some cell's string representation contains the query as a
case-insensitive, non-regex substring — the comparison runs over every
cell of the row regardless of column type, and a match that differs from
the cell only in letter case counts (source lines 69-70). -/
theorem c7_filter_case_insensitive (t : Table) (q : String) (hq : q ≠ "") :
    filterRows (some q) t.rows = t.rows.filter (rowMatches q) ∧
    (∀ spec : ViewSpec, spec.searchQuery = some q → spec.sortColumn = none →
      applyViewRows t spec = .ok (t.rows.filter (rowMatches q))) ∧
    ∀ row, rowMatches q row = true ↔ ∃ c, c ∈ row ∧ specContainsCI (cellStr c) q := by
  have hqe : q.isEmpty = false := by
    cases h : q.isEmpty
    · rfl
    · exact absurd ((String.isEmpty_iff q).mp h) hq
  refine ⟨by simp [filterRows, hqe], ?_, ?_⟩
  · intro spec hsq hsc
    simp [applyViewRows, hsq, hsc, filterRows, hqe]
  · intro row
    simp only [rowMatches, List.any_eq_true]
    constructor
    · rintro ⟨c, hc, hm⟩
      exact ⟨c, hc, (containsCI_iff_specContainsCI _ _).mp hm⟩
    · rintro ⟨c, hc, hm⟩
      exact ⟨c, hc, (containsCI_iff_specContainsCI _ _).mpr hm⟩

/-- C7 witness: the query "ABC" retains a row whose only match differs in
letter case. -/
theorem c7_filter_case_insensitive_witness :
    filterRows (some "ABC") (Table.mk ["a"] [[Cell.str "xxabcyy"]]).rows =
      (Table.mk ["a"] [[Cell.str "xxabcyy"]]).rows.filter (rowMatches "ABC") ∧
    (∀ spec : ViewSpec, spec.searchQuery = some "ABC" → spec.sortColumn = none →
      applyViewRows (Table.mk ["a"] [[Cell.str "xxabcyy"]]) spec =
        .ok ((Table.mk ["a"] [[Cell.str "xxabcyy"]]).rows.filter (rowMatches "ABC"))) ∧
    ∀ row, rowMatches "ABC" row = true ↔
      ∃ c, c ∈ row ∧ specContainsCI (cellStr c) "ABC" :=
  c7_filter_case_insensitive (Table.mk ["a"] [[Cell.str "xxabcyy"]]) "ABC" (by decide)

theorem get_df_fst_eq (load : String → Table) (s : ConnState) (name : String)
    (h : rawCoherent load s) : (get_df load s name).1 = load name := by
  simp only [get_df, lruGet1]
  rcases hc : s.rawCache with _ | ⟨k0, v0⟩
  · simp
  · by_cases hk : k0 = name
    · subst hk
      simp [h k0 v0 hc]
    · simp [hk]

theorem get_df_rawCache (load : String → Table) (s : ConnState) (name : String) :
    (get_df load s name).2.rawCache = some (name, (get_df load s name).1) := by
  simp only [get_df, lruGet1]
  rcases hc : s.rawCache with _ | ⟨k0, v0⟩
  · simp
  · by_cases hk : k0 = name <;> simp [hk]

theorem get_df_coherent (load : String → Table) (s : ConnState) (name : String)
    (h : rawCoherent load s) : rawCoherent load (get_df load s name).2 := by
  intro k v hkv
  rw [get_df_rawCache load s name] at hkv
  have hp := Option.some.inj hkv
  have h1 : name = k := congrArg Prod.fst hp
  have h2 : (get_df load s name).1 = v := congrArg Prod.snd hp
  rw [← h2, ← h1, get_df_fst_eq load s name h]

theorem gfsdCompute_rawCache (load : String → Table) (s : ConnState) (k : ViewKey) :
    (gfsdCompute load s k).2.rawCache = (get_df load s k.tableName).2.rawCache := by
  unfold gfsdCompute
  cases happ : applyView (get_df load s k.tableName).1 (keySpec k) <;> simp [happ]

theorem gfsd_state_coherent (load : String → Table) (s : ConnState) (k : ViewKey)
    (h : rawCoherent load s) :
    rawCoherent load (get_filtered_sorted_df load s k).2 := by
  intro k1 v1 hkv
  unfold get_filtered_sorted_df at hkv
  split at hkv
  · split at hkv
    · exact h k1 v1 hkv
    · rw [gfsdCompute_rawCache load s k] at hkv
      exact get_df_coherent load s k.tableName h k1 v1 hkv
  · rw [gfsdCompute_rawCache load s k] at hkv
    exact get_df_coherent load s k.tableName h k1 v1 hkv

/-- C9: a loaded raw table is immutable under view computation — after
any `get_filtered_sorted_df` call, `get_df` still returns the very same
raw table for every table name (source lines 40-73: the view body only
reads the raw table; filtering and sorting build new dataframes). -/
theorem c9_raw_table_immutable (load : String → Table) (s : ConnState)
    (k : ViewKey) (name : String) (h : rawCoherent load s) :
    (get_df load (get_filtered_sorted_df load s k).2 name).1 =
      (get_df load s name).1 := by
  rw [get_df_fst_eq load _ name (gfsd_state_coherent load s k h),
    get_df_fst_eq load s name h]

/-- C9 witness: on a fresh connection state, computing a view leaves the
raw table returned for "t" unchanged. -/
theorem c9_raw_table_immutable_witness :
    (get_df (fun _ => emptyTable)
        (get_filtered_sorted_df (fun _ => emptyTable) ⟨none, none⟩
          ⟨"t", none, false, none⟩).2 "t").1 =
      (get_df (fun _ => emptyTable) ⟨none, none⟩ "t").1 :=
  c9_raw_table_immutable (fun _ => emptyTable) ⟨none, none⟩ ⟨"t", none, false, none⟩ "t"
    (fun _ _ hkv => nomatch hkv)

end SqliteViewer
